import Mathlib

/-!
Verification of the poker-assistant repository: a shallow embedding of the
repository's Python sources, with the claim theorems below.

* `src/poker/cards.py`  — card text parsing (`str_to_card`);
* `src/poker/ev.py`     — the three EV formulas (`ev_fold`, `ev_call`, `ev_raise`);
* `src/poker/equity.py` — the Monte-Carlo equity estimator (`monte_carlo_equity`);
* `src/poker/sim.py`    — the session ledger (`SessionState.add_hand`);
* `src/app.py`          — the front-end compute block's input validation.

Machine reals (`float`) are embedded as `ℚ`; the claims under study are about
the exact arithmetic the formulas denote.  The external `treys` library is
embedded at the granularity the estimator uses it: a card is a rank/suit pair
(`Card.new` produces a distinct value per rank/suit pair), a fresh `Deck`
presents the 52 cards in an order that is NOT a function of the estimator's
arguments (treys shuffles every freshly constructed deck with the global,
unseeded `random` module), `Deck.draw` pops cards off the front, and
`Evaluator.evaluate board hand` is an arbitrary rank function where lower
means stronger.  The ambient deck orders, the seeded generator's value
stream and the evaluator are therefore explicit parameters of the embedded
estimator.
-/

namespace PokerAssistant

/-- A playing card: rank index `0..12` into `"23456789TJQKA"` and suit index
`0..3` into `"shdc"`.  Embeds treys card ints: two cards are equal iff they
have the same rank and suit. -/
structure PCard where
  rank : ℕ
  suit : ℕ
deriving DecidableEq

/-- The contents of the full 52-card deck (treys `Deck.GetFullDeck`). -/
def fullDeck : List PCard :=
  (List.range 13).flatMap fun r => (List.range 4).map fun s => ⟨r, s⟩

/-! ## `src/poker/cards.py` -/

/-- Constant `RANKS = "23456789TJQKA"` from `cards.py`. -/
def RANKS : List Char := ['2', '3', '4', '5', '6', '7', '8', '9', 'T', 'J', 'Q', 'K', 'A']

/-- Constant `SUITS = "shdc"` from `cards.py`. -/
def SUITS : List Char := ['s', 'h', 'd', 'c']

/-- Python `str.strip()`: remove whitespace from both ends of the string. -/
def pyStrip (s : List Char) : List Char :=
  ((s.dropWhile Char.isWhitespace).reverse.dropWhile Char.isWhitespace).reverse

/-- Index of a character in a character list (`none` when absent).  Used both
for the membership tests `r not in RANKS` / `s not in SUITS` and for the
rank/suit indices that `Card.new(r + s)` encodes into the card value. -/
def char_index (l : List Char) (c : Char) : Option ℕ :=
  match l with
  | [] => none
  | x :: xs => if x = c then some 0 else (char_index xs c).map (· + 1)

/-- Function `str_to_card` from `cards.py`: strip the input, require length 2, upcase
the rank character and downcase the suit character, require membership in
`RANKS` / `SUITS`, and build the corresponding card (`Card.new(r + s)`). -/
def str_to_card (card_str : List Char) : Except String PCard :=
  match pyStrip card_str with
  | [c0, c1] =>
    let r := c0.toUpper
    let s := c1.toLower
    match char_index RANKS r, char_index SUITS s with
    | some ri, some si => Except.ok ⟨ri, si⟩
    | _, _ => Except.error ("Invalid card string.")
  | _ => Except.error ("Card must be like As, Td, 7h.")

/-! ## `src/poker/ev.py` -/

/-- Function `ev_fold()` from `ev.py`. -/
def ev_fold : ℚ := 0

/-- Function `ev_call(pot, call_amount, equity)` from `ev.py`. -/
def ev_call (pot call_amount equity : ℚ) : ℚ :=
  equity * (pot + call_amount) - (1 - equity) * call_amount

/-- The local `called_ev` of `ev_raise` in `ev.py` (the opponent-calls branch). -/
def ev_raise_called (pot raise_amount equity : ℚ) : ℚ :=
  equity * (pot + 2 * raise_amount) - (1 - equity) * raise_amount

/-- Function `ev_raise(pot, raise_amount, equity, fold_prob)` from `ev.py`:
`fold_prob` is clamped to `[0.05, 0.95]` before use. -/
def ev_raise (pot raise_amount equity fold_prob : ℚ) : ℚ :=
  let fp := min 0.95 (max 0.05 fold_prob)
  let called_ev := ev_raise_called pot raise_amount equity
  fp * pot + (1 - fp) * called_ev

/-! ## `src/poker/sim.py` -/

/-- Dataclass `HandLog` from `sim.py`. -/
structure HandLog where
  hand_id : ℕ
  pot : ℚ
  action : String
  ev : ℚ
  result : ℚ
  bankroll : ℚ
deriving DecidableEq

/-- Dataclass `SessionState` from `sim.py` (without the pandas export helper). -/
structure SessionState where
  bankroll : ℚ
  hand_id : ℕ
  logs : List HandLog
deriving DecidableEq

/-- Method `SessionState.add_hand` from `sim.py`.  The Python method mutates the
session in place and has no `return` statement, so the value of a call is
`None`; we return the updated state together with that call value, embedding
Python's `None`-or-entry as `Option HandLog`. -/
def add_hand (s : SessionState) (pot : ℚ) (action : String) (ev : ℚ)
    (result : ℚ) : SessionState × Option HandLog :=
  let hand_id := s.hand_id + 1
  let bankroll := s.bankroll + result
  let entry : HandLog :=
    { hand_id := hand_id, pot := pot, action := action, ev := ev,
      result := result, bankroll := bankroll }
  ({ bankroll := bankroll, hand_id := hand_id, logs := s.logs ++ [entry] }, none)

/-- A sequence of `add_hand` calls on a session: each element of `hands` is a
`(pot, action, ev, result)` argument tuple, applied in order (the call values,
all `None`, are discarded, as the front end does). -/
def run_hands (s : SessionState) (hands : List (ℚ × String × ℚ × ℚ)) : SessionState :=
  hands.foldl (fun st h => (add_hand st h.1 h.2.1 h.2.2.1 h.2.2.2).1) s

/-! ## `src/poker/equity.py` -/

/-- Swap the entries at positions `i` and `j` of a list (identity when either
index is out of range).  This is Python's `x[i], x[j] = x[j], x[i]`. -/
def listSwap {α : Type} (l : List α) (i j : ℕ) : List α :=
  match l.get? i, l.get? j with
  | some a, some b => (l.set i b).set j a
  | _, _ => l

/-- Python `random.Random.shuffle` (Fisher–Yates): for `i = len-1, …, 1` draw
`j = rng._randbelow(i + 1)` and swap positions `i` and `j`.  The values the
seeded generator produces are abstracted as a stream `js : ℕ → ℕ`,
`js i % (i + 1)` standing for the `_randbelow(i + 1)` drawn at step `i`;
the stream is a deterministic function of the generator's seed. -/
def shuffleFY {α : Type} (js : ℕ → ℕ) (l : List α) : List α :=
  ((List.range' 1 (l.length - 1)).reverse).foldl
    (fun acc i => listSwap acc i (js i % (i + 1))) l

/-- One trial's deck after `deck = Deck()`,
`deck.cards = [c for c in deck.cards if c not in dead_cards]` and
`rng.shuffle(deck.cards)` in `equity.py`.  `deckInit t` is the order in which
the fresh `Deck()` of trial `t` presents its cards — treys shuffles every new
deck with the global, unseeded `random` module, so this order is an ambient
input rather than a function of the estimator's arguments.  `js t` is the
seeded generator's value stream consumed by `rng.shuffle` during trial `t`. -/
def trialShuffled (js : ℕ → ℕ → ℕ) (deckInit : ℕ → List PCard)
    (dead_cards : List PCard) (t : ℕ) : List PCard :=
  shuffleFY (js t) ((deckInit t).filter (fun c => decide (c ∉ dead_cards)))

/-- The opponent hole of trial `t`:
`opp_hole = [deck.draw(1)[0], deck.draw(1)[0]]` — the first two cards off the
front of the shuffled deck. -/
def trialOppHole (js : ℕ → ℕ → ℕ) (deckInit : ℕ → List PCard)
    (dead_cards : List PCard) (t : ℕ) : List PCard :=
  (trialShuffled js deckInit dead_cards t).take 2

/-- The cards drawn for the runout of trial `t`:
`deck.draw(needed)` with `needed = 5 - len(board)`, after the two hole-card
draws. -/
def trialRunoutDraw (js : ℕ → ℕ → ℕ) (deckInit : ℕ → List PCard)
    (board dead_cards : List PCard) (t : ℕ) : List PCard :=
  ((trialShuffled js deckInit dead_cards t).drop 2).take (5 - board.length)

/-- The completed board of trial `t`: `runout = board[:] + deck.draw(needed)`. -/
def trialRunout (js : ℕ → ℕ → ℕ) (deckInit : ℕ → List PCard)
    (board dead_cards : List PCard) (t : ℕ) : List PCard :=
  board ++ trialRunoutDraw js deckInit board dead_cards t

/-- Classification of a single trial. -/
inductive TrialResult
  | win
  | tie
  | loss
deriving DecidableEq

/-- The classification the loop body of `monte_carlo_equity` gives trial `t`:
`evalRank` embeds `evaluator.evaluate(runout, hand)` (treys: LOWER rank is
the STRONGER hand); hero wins when `hero_rank < opp_rank`, ties when equal. -/
def trialResult (evalRank : List PCard → List PCard → ℕ)
    (js : ℕ → ℕ → ℕ) (deckInit : ℕ → List PCard)
    (hero_hole board dead_cards : List PCard) (t : ℕ) : TrialResult :=
  let opp_hole := trialOppHole js deckInit dead_cards t
  let runout := trialRunout js deckInit board dead_cards t
  let hero_rank := evalRank runout hero_hole
  let opp_rank := evalRank runout opp_hole
  if hero_rank < opp_rank then TrialResult.win
  else if hero_rank = opp_rank then TrialResult.tie
  else TrialResult.loss

/-- The loop body of `monte_carlo_equity` as a named step function on the
`(wins, ties, trials)` accumulator. -/
def mcStep (evalRank : List PCard → List PCard → ℕ)
    (js : ℕ → ℕ → ℕ) (deckInit : ℕ → List PCard)
    (hero_hole board dead_cards : List PCard)
    (acc : ℕ × ℕ × ℕ) (t : ℕ) : ℕ × ℕ × ℕ :=
  let opp_hole := trialOppHole js deckInit dead_cards t
  let runout := trialRunout js deckInit board dead_cards t
  let hero_rank := evalRank runout hero_hole
  let opp_rank := evalRank runout opp_hole
  if hero_rank < opp_rank then (acc.1 + 1, acc.2.1, acc.2.2 + 1)
  else if hero_rank = opp_rank then (acc.1, acc.2.1 + 1, acc.2.2 + 1)
  else (acc.1, acc.2.1, acc.2.2 + 1)

/-- Function `monte_carlo_equity(hero_hole, board, dead_cards, n, seed)` from
`equity.py`.  The loop accumulates `(wins, ties, trials)` over `n`
repetitions and returns `(wins + 0.5 * ties) / max(1, trials)`.  The seeded
generator `random.Random(seed)` is embedded as the stream family `js`
(a deterministic function of `seed`), and the ambient order of each trial's
fresh `Deck()` as `deckInit`. -/
def monte_carlo_equity (evalRank : List PCard → List PCard → ℕ)
    (js : ℕ → ℕ → ℕ) (deckInit : ℕ → List PCard)
    (hero_hole board dead_cards : List PCard) (n : ℕ) : ℚ :=
  let res := (List.range n).foldl
    (mcStep evalRank js deckInit hero_hole board dead_cards) (0, 0, 0)
  ((res.1 : ℚ) + 0.5 * (res.2.1 : ℚ)) / ((max 1 res.2.2 : ℕ) : ℚ)

/-- Number of trials among `0, …, n-1` classified as hero wins. -/
def winCount (evalRank : List PCard → List PCard → ℕ)
    (js : ℕ → ℕ → ℕ) (deckInit : ℕ → List PCard)
    (hero_hole board dead_cards : List PCard) (n : ℕ) : ℕ :=
  ((List.range n).filter (fun t =>
    decide (trialResult evalRank js deckInit hero_hole board dead_cards t
      = TrialResult.win))).length

/-- Number of trials among `0, …, n-1` classified as ties. -/
def tieCount (evalRank : List PCard → List PCard → ℕ)
    (js : ℕ → ℕ → ℕ) (deckInit : ℕ → List PCard)
    (hero_hole board dead_cards : List PCard) (n : ℕ) : ℕ :=
  ((List.range n).filter (fun t =>
    decide (trialResult evalRank js deckInit hero_hole board dead_cards t
      = TrialResult.tie))).length

/-! ## `src/app.py` (compute block) -/

/-- Helper `parse_cards` from `app.py`: keep the selected cards, drop the `None`s. -/
def parse_cards (card_list : List (Option PCard)) : List PCard :=
  card_list.filterMap id

/-- Helper `has_duplicates` from `app.py`: `len(cards) != len(set(cards))`. -/
def has_duplicates (cards : List PCard) : Bool :=
  decide (cards.length ≠ cards.dedup.length)

/-- The validation-and-compute block of `app.py` (the `if compute:` branch):
parse the seven card pickers, validate, and either stop with an error message
(`st.error` + `st.stop`) before any simulation runs, or call
`monte_carlo_equity` with `dead = set(hero_cards + board_cards)`. -/
def computeBlock (evalRank : List PCard → List PCard → ℕ)
    (js : ℕ → ℕ → ℕ) (deckInit : ℕ → List PCard)
    (h1 h2 f1 f2 f3 t1 r1 : Option PCard) (mc_trials : ℕ) : Except String ℚ :=
  let hero_cards := parse_cards [h1, h2]
  let board_cards := parse_cards [f1, f2, f3, t1, r1]
  if hero_cards.length ≠ 2 then
    Except.error ("Please select exactly 2 hero cards.")
  else
    let flop_selected := [f1, f2, f3]
    if (flop_selected.any fun x => x.isSome) && !(flop_selected.all fun x => x.isSome) then
      Except.error ("If you enter a flop, please select all 3 flop cards.")
    else if t1.isSome && !(flop_selected.all fun x => x.isSome) then
      Except.error ("Turn selected but flop is incomplete. Please fill the flop first.")
    else if r1.isSome && !t1.isSome then
      Except.error ("River selected but turn is missing. Please select the turn first.")
    else
      let all_cards := hero_cards ++ board_cards
      if has_duplicates all_cards then
        Except.error ("Duplicate card detected. Please fix your card selection.")
      else
        Except.ok (monte_carlo_equity evalRank js deckInit hero_cards board_cards
          all_cards mc_trials)

/-! ## Helper lemmas -/

theorem cons_set_perm {α : Type} (a : α) :
    ∀ (t : List α) (m : ℕ) (h : m < t.length),
      (t.get ⟨m, h⟩ :: t.set m a).Perm (a :: t) := by
  intro t
  induction t with
  | nil => intro m h; simp at h
  | cons b t ih =>
    intro m h
    cases m with
    | zero => exact List.Perm.swap a b t
    | succ m =>
      have hm : m < t.length := by simpa using h
      have e1 : (b :: t).get ⟨m + 1, h⟩ :: (b :: t).set (m + 1) a
          = t.get ⟨m, hm⟩ :: b :: t.set m a := by simp
      rw [e1]
      exact ((List.Perm.swap b (t.get ⟨m, hm⟩) (t.set m a)).trans
        ((ih m hm).cons b)).trans (List.Perm.swap a b t)

theorem set_set_swap_perm {α : Type} :
    ∀ (l : List α) (i j : ℕ) (hi : i < l.length) (hj : j < l.length),
      ((l.set i (l.get ⟨j, hj⟩)).set j (l.get ⟨i, hi⟩)).Perm l := by
  intro l
  induction l with
  | nil => intro i j hi hj; simp at hi
  | cons x xs ih =>
    intro i j hi hj
    cases i with
    | zero =>
      cases j with
      | zero => simp
      | succ m =>
        have hm : m < xs.length := by simpa using hj
        have : ((x :: xs).set 0 ((x :: xs).get ⟨m + 1, hj⟩)).set (m + 1)
            ((x :: xs).get ⟨0, hi⟩)
            = xs.get ⟨m, hm⟩ :: xs.set m x := by simp
        rw [this]
        exact cons_set_perm x xs m hm
    | succ k =>
      have hk : k < xs.length := by simpa using hi
      cases j with
      | zero =>
        have : ((x :: xs).set (k + 1) ((x :: xs).get ⟨0, hj⟩)).set 0
            ((x :: xs).get ⟨k + 1, hi⟩)
            = xs.get ⟨k, hk⟩ :: xs.set k x := by simp
        rw [this]
        exact cons_set_perm x xs k hk
      | succ m =>
        have hm : m < xs.length := by simpa using hj
        have : ((x :: xs).set (k + 1) ((x :: xs).get ⟨m + 1, hj⟩)).set (m + 1)
            ((x :: xs).get ⟨k + 1, hi⟩)
            = x :: ((xs.set k (xs.get ⟨m, hm⟩)).set m (xs.get ⟨k, hk⟩)) := by simp
        rw [this]
        exact (ih k m hk hm).cons x

theorem listSwap_perm {α : Type} (l : List α) (i j : ℕ) : (listSwap l i j).Perm l := by
  unfold listSwap
  cases hi : l.get? i with
  | none => cases hj : l.get? j <;> simp
  | some a =>
    cases hj : l.get? j with
    | none => simp
    | some b =>
      have hi' : i < l.length := List.get?_eq_some.mp hi |>.1
      have hj' : j < l.length := List.get?_eq_some.mp hj |>.1
      have ha : a = l.get ⟨i, hi'⟩ := (List.get?_eq_some.mp hi).2.symm
      have hb : b = l.get ⟨j, hj'⟩ := (List.get?_eq_some.mp hj).2.symm
      simp only []
      rw [ha, hb]
      exact set_set_swap_perm l i j hi' hj'

theorem shuffleFY_perm {α : Type} (js : ℕ → ℕ) (l : List α) :
    (shuffleFY js l).Perm l := by
  unfold shuffleFY
  generalize (List.range' 1 (l.length - 1)).reverse = is
  induction is generalizing l with
  | nil => exact List.Perm.refl l
  | cons i is ih =>
    simp only [List.foldl_cons]
    exact (ih (listSwap l i (js i % (i + 1)))).trans (listSwap_perm l i _)

theorem mcStep_trialResult (evalRank : List PCard → List PCard → ℕ)
    (js : ℕ → ℕ → ℕ) (deckInit : ℕ → List PCard)
    (hero_hole board dead_cards : List PCard) (acc : ℕ × ℕ × ℕ) (t : ℕ) :
    mcStep evalRank js deckInit hero_hole board dead_cards acc t =
      (acc.1 + (if trialResult evalRank js deckInit hero_hole board dead_cards t
          = TrialResult.win then 1 else 0),
       acc.2.1 + (if trialResult evalRank js deckInit hero_hole board dead_cards t
          = TrialResult.tie then 1 else 0),
       acc.2.2 + 1) := by
  unfold mcStep trialResult
  by_cases h1 : evalRank (trialRunout js deckInit board dead_cards t) hero_hole
      < evalRank (trialRunout js deckInit board dead_cards t)
        (trialOppHole js deckInit dead_cards t)
  · simp [h1]
  · by_cases h2 : evalRank (trialRunout js deckInit board dead_cards t) hero_hole
        = evalRank (trialRunout js deckInit board dead_cards t)
          (trialOppHole js deckInit dead_cards t)
    · simp [h1, h2]
    · simp [h1, h2]

theorem winCount_succ (evalRank : List PCard → List PCard → ℕ)
    (js : ℕ → ℕ → ℕ) (deckInit : ℕ → List PCard)
    (hero_hole board dead_cards : List PCard) (n : ℕ) :
    winCount evalRank js deckInit hero_hole board dead_cards (n + 1)
      = winCount evalRank js deckInit hero_hole board dead_cards n
        + (if trialResult evalRank js deckInit hero_hole board dead_cards n
            = TrialResult.win then 1 else 0) := by
  unfold winCount
  rw [List.range_succ, List.filter_append, List.length_append]
  by_cases h : trialResult evalRank js deckInit hero_hole board dead_cards n
      = TrialResult.win <;> simp [h]

theorem tieCount_succ (evalRank : List PCard → List PCard → ℕ)
    (js : ℕ → ℕ → ℕ) (deckInit : ℕ → List PCard)
    (hero_hole board dead_cards : List PCard) (n : ℕ) :
    tieCount evalRank js deckInit hero_hole board dead_cards (n + 1)
      = tieCount evalRank js deckInit hero_hole board dead_cards n
        + (if trialResult evalRank js deckInit hero_hole board dead_cards n
            = TrialResult.tie then 1 else 0) := by
  unfold tieCount
  rw [List.range_succ, List.filter_append, List.length_append]
  by_cases h : trialResult evalRank js deckInit hero_hole board dead_cards n
      = TrialResult.tie <;> simp [h]

theorem mc_foldl_spec (evalRank : List PCard → List PCard → ℕ)
    (js : ℕ → ℕ → ℕ) (deckInit : ℕ → List PCard)
    (hero_hole board dead_cards : List PCard) :
    ∀ (n : ℕ) (acc : ℕ × ℕ × ℕ),
      (List.range n).foldl (mcStep evalRank js deckInit hero_hole board dead_cards) acc
        = (acc.1 + winCount evalRank js deckInit hero_hole board dead_cards n,
           acc.2.1 + tieCount evalRank js deckInit hero_hole board dead_cards n,
           acc.2.2 + n) := by
  intro n
  induction n with
  | zero => intro acc; simp [winCount, tieCount]
  | succ n ih =>
    intro acc
    rw [List.range_succ, List.foldl_append, ih, List.foldl_cons, List.foldl_nil,
      mcStep_trialResult, winCount_succ, tieCount_succ]
    refine Prod.ext ?_ (Prod.ext ?_ ?_) <;> simp <;> omega

theorem winCount_add_tieCount_le (evalRank : List PCard → List PCard → ℕ)
    (js : ℕ → ℕ → ℕ) (deckInit : ℕ → List PCard)
    (hero_hole board dead_cards : List PCard) (n : ℕ) :
    winCount evalRank js deckInit hero_hole board dead_cards n
      + tieCount evalRank js deckInit hero_hole board dead_cards n ≤ n := by
  induction n with
  | zero => simp [winCount, tieCount]
  | succ n ih =>
    rw [winCount_succ, tieCount_succ]
    cases h : trialResult evalRank js deckInit hero_hole board dead_cards n <;>
      simp [h] <;> omega

theorem char_index_isSome (l : List Char) (c : Char) :
    (char_index l c).isSome ↔ c ∈ l := by
  induction l with
  | nil => simp [char_index]
  | cons x xs ih =>
    by_cases hx : x = c
    · simp [char_index, hx]
    · simp only [char_index, hx, if_false, Option.isSome_map', ih, List.mem_cons]
      constructor
      · exact Or.inr
      · rintro (h | h)
        · exact absurd h.symm hx
        · exact h

theorem run_hands_spec (hands : List (ℚ × String × ℚ × ℚ)) :
    ∀ s : SessionState,
      (run_hands s hands).bankroll = s.bankroll + (hands.map fun h => h.2.2.2).sum
      ∧ (run_hands s hands).hand_id = s.hand_id + hands.length
      ∧ ∃ new : List HandLog,
          (run_hands s hands).logs = s.logs ++ new
          ∧ new.map HandLog.hand_id = List.range' (s.hand_id + 1) hands.length
          ∧ new.map HandLog.result = hands.map fun h => h.2.2.2 := by
  induction hands with
  | nil => intro s; simp [run_hands]
  | cons h hs ih =>
    intro s
    have e : run_hands s (h :: hs)
        = run_hands ((add_hand s h.1 h.2.1 h.2.2.1 h.2.2.2).1) hs := rfl
    rw [e]
    obtain ⟨hb, hid, new, hlogs, hids, hres⟩ :=
      ih ((add_hand s h.1 h.2.1 h.2.2.1 h.2.2.2).1)
    refine ⟨?_, ?_, ?_⟩
    · rw [hb]; simp [add_hand]; ring
    · rw [hid]; simp [add_hand]; omega
    · refine ⟨(⟨s.hand_id + 1, h.1, h.2.1, h.2.2.1, h.2.2.2,
          s.bankroll + h.2.2.2⟩ : HandLog) :: new, ?_, ?_, ?_⟩
      · rw [hlogs]; simp [add_hand]
      · have : List.range' (s.hand_id + 1) (hs.length + 1)
            = (s.hand_id + 1) :: List.range' (s.hand_id + 1 + 1) hs.length := by
          simp [List.range'_succ]
        simp only [List.length_cons, this, List.map_cons]
        refine congrArg (List.cons _) ?_
        have : (add_hand s h.1 h.2.1 h.2.2.1 h.2.2.2).1.hand_id = s.hand_id + 1 := rfl
        rw [this] at hids
        exact hids
      · simpa using hres

/-! ## Claim theorems -/

/-- C6: the three EV functions are pure total functions computing exactly the
stated formulas — `ev_fold = 0`; `ev_call` is `equity*(pot+callAmount) −
(1−equity)*callAmount`; `ev_raise` clamps `fold_prob` into `[0.05, 0.95]` and
mixes `pot` with the called branch; and in particular
`ev_call 10 5 0.6 = 7` and `ev_raise 10 15 0.6 0.35 = 15.2`. -/
theorem ev_formulas :
    ev_fold = 0
    ∧ (∀ pot call_amount equity : ℚ,
        ev_call pot call_amount equity
          = equity * (pot + call_amount) - (1 - equity) * call_amount)
    ∧ (∀ pot raise_amount equity fold_prob : ℚ,
        ev_raise pot raise_amount equity fold_prob
          = min (19/20) (max (1/20) fold_prob) * pot
            + (1 - min (19/20) (max (1/20) fold_prob))
              * (equity * (pot + 2 * raise_amount) - (1 - equity) * raise_amount))
    ∧ ev_call 10 5 (3/5) = 7
    ∧ ev_raise 10 15 (3/5) (7/20) = 76/5 := by
  refine ⟨rfl, fun _ _ _ => rfl, fun pot r e fp => ?_, by norm_num [ev_call], ?_⟩
  · show min 0.95 (max 0.05 fp) * pot
        + (1 - min 0.95 (max 0.05 fp)) * ev_raise_called pot r e = _
    norm_num [ev_raise_called]
  · show min 0.95 (max 0.05 (7/20 : ℚ)) * 10
        + (1 - min 0.95 (max 0.05 (7/20 : ℚ))) * ev_raise_called 10 15 (3/5) = 76/5
    norm_num [ev_raise_called, min_def, max_def]

/-- C7: with non-negative pot and bet sizes, `ev_call` and the called branch
of `ev_raise` (the local `called_ev`) are non-decreasing in equity on `[0,1]`. -/
theorem ev_monotone (pot call_amount raise_amount e1 e2 : ℚ)
    (hpot : 0 ≤ pot) (hcall : 0 ≤ call_amount) (hraise : 0 ≤ raise_amount)
    (_he1 : 0 ≤ e1) (h12 : e1 ≤ e2) (_he2 : e2 ≤ 1) :
    ev_call pot call_amount e1 ≤ ev_call pot call_amount e2
    ∧ ev_raise_called pot raise_amount e1 ≤ ev_raise_called pot raise_amount e2 := by
  constructor
  · unfold ev_call; nlinarith
  · unfold ev_raise_called; nlinarith

/-- Witness for C7 at `pot = 10`, `callAmount = 5`, `raiseAmount = 15`,
`e1 = 1/4`, `e2 = 1/2`. -/
theorem ev_monotone_witness :
    ((0 : ℚ) ≤ 10 ∧ (0 : ℚ) ≤ 5 ∧ (0 : ℚ) ≤ 15
      ∧ (0 : ℚ) ≤ 1/4 ∧ (1/4 : ℚ) ≤ 1/2 ∧ (1/2 : ℚ) ≤ 1)
    ∧ ev_call 10 5 (1/4) ≤ ev_call 10 5 (1/2)
    ∧ ev_raise_called 10 15 (1/4) ≤ ev_raise_called 10 15 (1/2) :=
  ⟨⟨by norm_num, by norm_num, by norm_num, by norm_num, by norm_num, by norm_num⟩,
    ev_monotone 10 5 15 (1/4) (1/2) (by norm_num) (by norm_num) (by norm_num)
      (by norm_num) (by norm_num) (by norm_num)⟩

/-- C8 counterexample: the Python `add_hand` has no `return` statement, so a
call's value is `None` — it appends the created entry to the log but does not
return it, contradicting the claim's "each call returns the created
HandLogEntry". -/
theorem add_hand_returns_none :
    (add_hand ⟨0, 0, []⟩ 10 ("CALL") 7 5).2 = none
    ∧ (add_hand ⟨0, 0, []⟩ 10 ("CALL") 7 5).1.logs.length = 1 :=
  ⟨rfl, rfl⟩

/-- C8 (amended): each `add_hand` call appends the created entry (returning
`None`); after N calls with realized results r1..rN from a fresh session,
the bankroll equals the initial bankroll plus Σri, and the history holds
exactly N entries in call order with sequence ids 1..N. -/
theorem ledger_correct (s0 : SessionState) (hands : List (ℚ × String × ℚ × ℚ))
    (hid : s0.hand_id = 0) (hlogs : s0.logs = []) :
    (run_hands s0 hands).bankroll = s0.bankroll + (hands.map fun h => h.2.2.2).sum
    ∧ (run_hands s0 hands).logs.length = hands.length
    ∧ (run_hands s0 hands).logs.map HandLog.hand_id = List.range' 1 hands.length
    ∧ (run_hands s0 hands).logs.map HandLog.result = hands.map fun h => h.2.2.2 := by
  obtain ⟨hb, _, new, hl, hi, hr⟩ := run_hands_spec hands s0
  rw [hlogs] at hl
  rw [hid] at hi
  simp only [List.nil_append] at hl
  rw [hl]
  refine ⟨hb, ?_, ?_, ?_⟩
  · have := congrArg List.length hi
    simpa using this
  · simpa using hi
  · simpa using hr

/-- Witness for C8 at a fresh session and two logged hands with realized
results `5` and `-3`. -/
theorem ledger_correct_witness :
    ((⟨0, 0, []⟩ : SessionState).hand_id = 0
      ∧ (⟨0, 0, []⟩ : SessionState).logs = [])
    ∧ ((run_hands ⟨0, 0, []⟩ [(10, "CALL", 7, 5), (8, "FOLD", 0, -3)]).bankroll
        = (⟨0, 0, []⟩ : SessionState).bankroll
          + (([(10, "CALL", 7, 5), (8, "FOLD", 0, -3)] :
              List (ℚ × String × ℚ × ℚ)).map fun h => h.2.2.2).sum
      ∧ (run_hands ⟨0, 0, []⟩
          [(10, "CALL", 7, 5), (8, "FOLD", 0, -3)]).logs.length
        = ([(10, "CALL", 7, 5), (8, "FOLD", 0, -3)] :
            List (ℚ × String × ℚ × ℚ)).length
      ∧ (run_hands ⟨0, 0, []⟩
          [(10, "CALL", 7, 5), (8, "FOLD", 0, -3)]).logs.map HandLog.hand_id
        = List.range' 1 ([(10, "CALL", 7, 5), (8, "FOLD", 0, -3)] :
            List (ℚ × String × ℚ × ℚ)).length
      ∧ (run_hands ⟨0, 0, []⟩
          [(10, "CALL", 7, 5), (8, "FOLD", 0, -3)]).logs.map HandLog.result
        = ([(10, "CALL", 7, 5), (8, "FOLD", 0, -3)] :
            List (ℚ × String × ℚ × ℚ)).map fun h => h.2.2.2) :=
  ⟨⟨rfl, rfl⟩, ledger_correct ⟨0, 0, []⟩ [(10, "CALL", 7, 5), (8, "FOLD", 0, -3)] rfl rfl⟩

/-- C10: calling the estimator with `trials = 0` does not fail: the loop runs
zero times and the division is by `max(1, trials)`, so the result is `0`. -/
theorem monte_carlo_equity_zero_trials (evalRank : List PCard → List PCard → ℕ)
    (js : ℕ → ℕ → ℕ) (deckInit : ℕ → List PCard)
    (hero_hole board dead_cards : List PCard) :
    monte_carlo_equity evalRank js deckInit hero_hole board dead_cards 0 = 0 := by
  unfold monte_carlo_equity
  norm_num

theorem trialResult_def (evalRank : List PCard → List PCard → ℕ)
    (js : ℕ → ℕ → ℕ) (deckInit : ℕ → List PCard)
    (hero_hole board dead_cards : List PCard) (t : ℕ) :
    trialResult evalRank js deckInit hero_hole board dead_cards t
      = (if evalRank (trialRunout js deckInit board dead_cards t) hero_hole
            < evalRank (trialRunout js deckInit board dead_cards t)
              (trialOppHole js deckInit dead_cards t) then TrialResult.win
         else if evalRank (trialRunout js deckInit board dead_cards t) hero_hole
            = evalRank (trialRunout js deckInit board dead_cards t)
              (trialOppHole js deckInit dead_cards t) then TrialResult.tie
         else TrialResult.loss) := rfl

theorem range_bounds (w t n : ℕ) (h : w + t ≤ n) :
    0 ≤ ((w : ℚ) + 0.5 * (t : ℚ)) / ((max 1 n : ℕ) : ℚ)
    ∧ ((w : ℚ) + 0.5 * (t : ℚ)) / ((max 1 n : ℕ) : ℚ) ≤ 1 := by
  have hd : (0 : ℚ) < ((max 1 n : ℕ) : ℚ) := by
    have h1 : (1 : ℕ) ≤ max 1 n := Nat.le_max_left 1 n
    have : (1 : ℚ) ≤ ((max 1 n : ℕ) : ℚ) := by exact_mod_cast h1
    linarith
  constructor
  · apply div_nonneg _ hd.le
    positivity
  · rw [div_le_one hd]
    have h1 : (w : ℚ) + (t : ℚ) ≤ (n : ℚ) := by exact_mod_cast h
    have h2 : (n : ℚ) ≤ ((max 1 n : ℕ) : ℚ) := by exact_mod_cast Nat.le_max_right 1 n
    have h3 : (0 : ℚ) ≤ (t : ℚ) := by positivity
    nlinarith

/-- C1: for `trials ≥ 1` the estimator returns exactly
`(wins + 0.5*ties) / trials`, where `wins` / `ties` count the repetitions
whose sampled opponent hole and completed runout give hero a strictly better
(respectively, equal) evaluator rank — treys ranks are lower-is-stronger, so
"strictly better" is `hero_rank < opp_rank`. -/
theorem monte_carlo_equity_formula (evalRank : List PCard → List PCard → ℕ)
    (js : ℕ → ℕ → ℕ) (deckInit : ℕ → List PCard)
    (hero_hole board dead_cards : List PCard) (n : ℕ) (hn : 1 ≤ n) :
    monte_carlo_equity evalRank js deckInit hero_hole board dead_cards n
      = ((winCount evalRank js deckInit hero_hole board dead_cards n : ℚ)
          + 0.5 * (tieCount evalRank js deckInit hero_hole board dead_cards n : ℚ))
        / (n : ℚ)
    ∧ (∀ t, trialResult evalRank js deckInit hero_hole board dead_cards t
          = TrialResult.win
        ↔ evalRank (trialRunout js deckInit board dead_cards t) hero_hole
          < evalRank (trialRunout js deckInit board dead_cards t)
            (trialOppHole js deckInit dead_cards t))
    ∧ (∀ t, trialResult evalRank js deckInit hero_hole board dead_cards t
          = TrialResult.tie
        ↔ evalRank (trialRunout js deckInit board dead_cards t) hero_hole
          = evalRank (trialRunout js deckInit board dead_cards t)
            (trialOppHole js deckInit dead_cards t)) := by
  refine ⟨?_, ?_, ?_⟩
  · simp only [monte_carlo_equity]
    rw [mc_foldl_spec]
    simp only [Nat.zero_add]
    rw [Nat.max_eq_right hn]
  · intro t
    rw [trialResult_def]
    by_cases hlt : evalRank (trialRunout js deckInit board dead_cards t) hero_hole
        < evalRank (trialRunout js deckInit board dead_cards t)
          (trialOppHole js deckInit dead_cards t)
    · simp [hlt]
    · by_cases heq : evalRank (trialRunout js deckInit board dead_cards t) hero_hole
          = evalRank (trialRunout js deckInit board dead_cards t)
            (trialOppHole js deckInit dead_cards t)
      · simp [hlt, heq]
      · simp [hlt, heq]
  · intro t
    rw [trialResult_def]
    by_cases hlt : evalRank (trialRunout js deckInit board dead_cards t) hero_hole
        < evalRank (trialRunout js deckInit board dead_cards t)
          (trialOppHole js deckInit dead_cards t)
    · simp [hlt, Nat.ne_of_lt hlt]
    · by_cases heq : evalRank (trialRunout js deckInit board dead_cards t) hero_hole
          = evalRank (trialRunout js deckInit board dead_cards t)
            (trialOppHole js deckInit dead_cards t)
      · simp [hlt, heq]
      · simp [hlt, heq]

/-- Witness for C1 at a concrete scenario (hero AsKs, complete heart board,
head-rank evaluator, identity-free stream, canonical fresh-deck order,
one trial). -/
theorem monte_carlo_equity_formula_witness :
    1 ≤ 1
    ∧ (monte_carlo_equity (fun _ h => (h.headD ⟨0, 0⟩).rank) (fun _ _ => 0)
        (fun _ => fullDeck) [⟨12, 0⟩, ⟨11, 0⟩]
        [⟨0, 1⟩, ⟨1, 1⟩, ⟨2, 1⟩, ⟨3, 1⟩, ⟨4, 1⟩]
        [⟨12, 0⟩, ⟨11, 0⟩, ⟨0, 1⟩, ⟨1, 1⟩, ⟨2, 1⟩, ⟨3, 1⟩, ⟨4, 1⟩] 1
      = ((winCount (fun _ h => (h.headD ⟨0, 0⟩).rank) (fun _ _ => 0)
            (fun _ => fullDeck) [⟨12, 0⟩, ⟨11, 0⟩]
            [⟨0, 1⟩, ⟨1, 1⟩, ⟨2, 1⟩, ⟨3, 1⟩, ⟨4, 1⟩]
            [⟨12, 0⟩, ⟨11, 0⟩, ⟨0, 1⟩, ⟨1, 1⟩, ⟨2, 1⟩, ⟨3, 1⟩, ⟨4, 1⟩] 1 : ℚ)
          + 0.5 * (tieCount (fun _ h => (h.headD ⟨0, 0⟩).rank) (fun _ _ => 0)
            (fun _ => fullDeck) [⟨12, 0⟩, ⟨11, 0⟩]
            [⟨0, 1⟩, ⟨1, 1⟩, ⟨2, 1⟩, ⟨3, 1⟩, ⟨4, 1⟩]
            [⟨12, 0⟩, ⟨11, 0⟩, ⟨0, 1⟩, ⟨1, 1⟩, ⟨2, 1⟩, ⟨3, 1⟩, ⟨4, 1⟩] 1 : ℚ))
        / ((1 : ℕ) : ℚ)
      ∧ (∀ t, trialResult (fun _ h => (h.headD ⟨0, 0⟩).rank) (fun _ _ => 0)
            (fun _ => fullDeck) [⟨12, 0⟩, ⟨11, 0⟩]
            [⟨0, 1⟩, ⟨1, 1⟩, ⟨2, 1⟩, ⟨3, 1⟩, ⟨4, 1⟩]
            [⟨12, 0⟩, ⟨11, 0⟩, ⟨0, 1⟩, ⟨1, 1⟩, ⟨2, 1⟩, ⟨3, 1⟩, ⟨4, 1⟩] t
          = TrialResult.win
        ↔ (fun _ h => (h.headD (⟨0, 0⟩ : PCard)).rank)
            (trialRunout (fun _ _ => 0) (fun _ => fullDeck)
              [⟨0, 1⟩, ⟨1, 1⟩, ⟨2, 1⟩, ⟨3, 1⟩, ⟨4, 1⟩]
              [⟨12, 0⟩, ⟨11, 0⟩, ⟨0, 1⟩, ⟨1, 1⟩, ⟨2, 1⟩, ⟨3, 1⟩, ⟨4, 1⟩] t)
            [⟨12, 0⟩, ⟨11, 0⟩]
          < (fun _ h => (h.headD (⟨0, 0⟩ : PCard)).rank)
            (trialRunout (fun _ _ => 0) (fun _ => fullDeck)
              [⟨0, 1⟩, ⟨1, 1⟩, ⟨2, 1⟩, ⟨3, 1⟩, ⟨4, 1⟩]
              [⟨12, 0⟩, ⟨11, 0⟩, ⟨0, 1⟩, ⟨1, 1⟩, ⟨2, 1⟩, ⟨3, 1⟩, ⟨4, 1⟩] t)
            (trialOppHole (fun _ _ => 0) (fun _ => fullDeck)
              [⟨12, 0⟩, ⟨11, 0⟩, ⟨0, 1⟩, ⟨1, 1⟩, ⟨2, 1⟩, ⟨3, 1⟩, ⟨4, 1⟩] t))
      ∧ (∀ t, trialResult (fun _ h => (h.headD ⟨0, 0⟩).rank) (fun _ _ => 0)
            (fun _ => fullDeck) [⟨12, 0⟩, ⟨11, 0⟩]
            [⟨0, 1⟩, ⟨1, 1⟩, ⟨2, 1⟩, ⟨3, 1⟩, ⟨4, 1⟩]
            [⟨12, 0⟩, ⟨11, 0⟩, ⟨0, 1⟩, ⟨1, 1⟩, ⟨2, 1⟩, ⟨3, 1⟩, ⟨4, 1⟩] t
          = TrialResult.tie
        ↔ (fun _ h => (h.headD (⟨0, 0⟩ : PCard)).rank)
            (trialRunout (fun _ _ => 0) (fun _ => fullDeck)
              [⟨0, 1⟩, ⟨1, 1⟩, ⟨2, 1⟩, ⟨3, 1⟩, ⟨4, 1⟩]
              [⟨12, 0⟩, ⟨11, 0⟩, ⟨0, 1⟩, ⟨1, 1⟩, ⟨2, 1⟩, ⟨3, 1⟩, ⟨4, 1⟩] t)
            [⟨12, 0⟩, ⟨11, 0⟩]
          = (fun _ h => (h.headD (⟨0, 0⟩ : PCard)).rank)
            (trialRunout (fun _ _ => 0) (fun _ => fullDeck)
              [⟨0, 1⟩, ⟨1, 1⟩, ⟨2, 1⟩, ⟨3, 1⟩, ⟨4, 1⟩]
              [⟨12, 0⟩, ⟨11, 0⟩, ⟨0, 1⟩, ⟨1, 1⟩, ⟨2, 1⟩, ⟨3, 1⟩, ⟨4, 1⟩] t)
            (trialOppHole (fun _ _ => 0) (fun _ => fullDeck)
              [⟨12, 0⟩, ⟨11, 0⟩, ⟨0, 1⟩, ⟨1, 1⟩, ⟨2, 1⟩, ⟨3, 1⟩, ⟨4, 1⟩] t))) :=
  ⟨by decide,
    monte_carlo_equity_formula (fun _ h => (h.headD ⟨0, 0⟩).rank) (fun _ _ => 0)
      (fun _ => fullDeck) [⟨12, 0⟩, ⟨11, 0⟩]
      [⟨0, 1⟩, ⟨1, 1⟩, ⟨2, 1⟩, ⟨3, 1⟩, ⟨4, 1⟩]
      [⟨12, 0⟩, ⟨11, 0⟩, ⟨0, 1⟩, ⟨1, 1⟩, ⟨2, 1⟩, ⟨3, 1⟩, ⟨4, 1⟩] 1 (by decide)⟩

/-- C4: the estimator's value always lies in `[0, 1]` (for every trial count,
including the spec's `trials ≥ 1` range): wins plus ties never exceed the
number of trials. -/
theorem monte_carlo_equity_range (evalRank : List PCard → List PCard → ℕ)
    (js : ℕ → ℕ → ℕ) (deckInit : ℕ → List PCard)
    (hero_hole board dead_cards : List PCard) (n : ℕ) :
    0 ≤ monte_carlo_equity evalRank js deckInit hero_hole board dead_cards n
    ∧ monte_carlo_equity evalRank js deckInit hero_hole board dead_cards n ≤ 1 := by
  have hwt := winCount_add_tieCount_le evalRank js deckInit hero_hole board dead_cards n
  simp only [monte_carlo_equity]
  rw [mc_foldl_spec]
  simp only [Nat.zero_add]
  exact range_bounds _ _ _ hwt

/-- C2 (code bug demonstration): with every estimator argument fixed — hero
hole, board, dead cards, trial count, and the seeded generator's stream —
the returned equity still differs between two ambient orders of the freshly
constructed `Deck()` (treys shuffles each new deck with the global, unseeded
`random` module, and the seeded `rng.shuffle` of a differently-ordered pool
draws different cards).  The result is therefore not a function of
`(heroHole, board, deadCards, trials, seed)` alone. -/
theorem monte_carlo_equity_ambient_dependence :
    monte_carlo_equity (fun _ h => (h.headD ⟨0, 0⟩).rank) (fun _ _ => 0)
      (fun _ => fullDeck) [⟨12, 0⟩, ⟨11, 0⟩]
      [⟨0, 1⟩, ⟨1, 1⟩, ⟨2, 1⟩, ⟨3, 1⟩, ⟨4, 1⟩]
      [⟨12, 0⟩, ⟨11, 0⟩, ⟨0, 1⟩, ⟨1, 1⟩, ⟨2, 1⟩, ⟨3, 1⟩, ⟨4, 1⟩] 1
    ≠ monte_carlo_equity (fun _ h => (h.headD ⟨0, 0⟩).rank) (fun _ _ => 0)
      (fun _ => fullDeck.reverse) [⟨12, 0⟩, ⟨11, 0⟩]
      [⟨0, 1⟩, ⟨1, 1⟩, ⟨2, 1⟩, ⟨3, 1⟩, ⟨4, 1⟩]
      [⟨12, 0⟩, ⟨11, 0⟩, ⟨0, 1⟩, ⟨1, 1⟩, ⟨2, 1⟩, ⟨3, 1⟩, ⟨4, 1⟩] 1 := by
  have e1 : monte_carlo_equity (fun _ h => (h.headD ⟨0, 0⟩).rank) (fun _ _ => 0)
      (fun _ => fullDeck) [⟨12, 0⟩, ⟨11, 0⟩]
      [⟨0, 1⟩, ⟨1, 1⟩, ⟨2, 1⟩, ⟨3, 1⟩, ⟨4, 1⟩]
      [⟨12, 0⟩, ⟨11, 0⟩, ⟨0, 1⟩, ⟨1, 1⟩, ⟨2, 1⟩, ⟨3, 1⟩, ⟨4, 1⟩] 1 = 0 := by
    simp only [monte_carlo_equity]
    rw [mc_foldl_spec]
    have hw : winCount (fun _ h => (h.headD ⟨0, 0⟩).rank) (fun _ _ => 0)
        (fun _ => fullDeck) [⟨12, 0⟩, ⟨11, 0⟩]
        [⟨0, 1⟩, ⟨1, 1⟩, ⟨2, 1⟩, ⟨3, 1⟩, ⟨4, 1⟩]
        [⟨12, 0⟩, ⟨11, 0⟩, ⟨0, 1⟩, ⟨1, 1⟩, ⟨2, 1⟩, ⟨3, 1⟩, ⟨4, 1⟩] 1 = 0 := by decide
    have ht : tieCount (fun _ h => (h.headD ⟨0, 0⟩).rank) (fun _ _ => 0)
        (fun _ => fullDeck) [⟨12, 0⟩, ⟨11, 0⟩]
        [⟨0, 1⟩, ⟨1, 1⟩, ⟨2, 1⟩, ⟨3, 1⟩, ⟨4, 1⟩]
        [⟨12, 0⟩, ⟨11, 0⟩, ⟨0, 1⟩, ⟨1, 1⟩, ⟨2, 1⟩, ⟨3, 1⟩, ⟨4, 1⟩] 1 = 0 := by decide
    rw [hw, ht]
    norm_num
  have e2 : monte_carlo_equity (fun _ h => (h.headD ⟨0, 0⟩).rank) (fun _ _ => 0)
      (fun _ => fullDeck.reverse) [⟨12, 0⟩, ⟨11, 0⟩]
      [⟨0, 1⟩, ⟨1, 1⟩, ⟨2, 1⟩, ⟨3, 1⟩, ⟨4, 1⟩]
      [⟨12, 0⟩, ⟨11, 0⟩, ⟨0, 1⟩, ⟨1, 1⟩, ⟨2, 1⟩, ⟨3, 1⟩, ⟨4, 1⟩] 1 = 1/2 := by
    simp only [monte_carlo_equity]
    rw [mc_foldl_spec]
    have hw : winCount (fun _ h => (h.headD ⟨0, 0⟩).rank) (fun _ _ => 0)
        (fun _ => fullDeck.reverse) [⟨12, 0⟩, ⟨11, 0⟩]
        [⟨0, 1⟩, ⟨1, 1⟩, ⟨2, 1⟩, ⟨3, 1⟩, ⟨4, 1⟩]
        [⟨12, 0⟩, ⟨11, 0⟩, ⟨0, 1⟩, ⟨1, 1⟩, ⟨2, 1⟩, ⟨3, 1⟩, ⟨4, 1⟩] 1 = 0 := by decide
    have ht : tieCount (fun _ h => (h.headD ⟨0, 0⟩).rank) (fun _ _ => 0)
        (fun _ => fullDeck.reverse) [⟨12, 0⟩, ⟨11, 0⟩]
        [⟨0, 1⟩, ⟨1, 1⟩, ⟨2, 1⟩, ⟨3, 1⟩, ⟨4, 1⟩]
        [⟨12, 0⟩, ⟨11, 0⟩, ⟨0, 1⟩, ⟨1, 1⟩, ⟨2, 1⟩, ⟨3, 1⟩, ⟨4, 1⟩] 1 = 1 := by decide
    rw [hw, ht]
    norm_num
  rw [e1, e2]
  norm_num

theorem fullDeck_nodup : fullDeck.Nodup := by decide

/-- C3: in every trial, the sampled opponent hole (the first 2 draws) and the
sampled runout cards (the next `5 − len(board)` draws) come from the 52-card
deck minus the dead cards: none of them is a dead card, all of them are
full-deck cards, and the `2 + (5 − len(board))` draws are pairwise distinct.
Moreover the trial's shuffled deck is a permutation of the freshly rebuilt
pool `deckInit t` minus the dead cards, so no exclusion leaks from one trial
into a later one. -/
theorem trial_draws_valid (js : ℕ → ℕ → ℕ) (deckInit : ℕ → List PCard)
    (board dead_cards : List PCard)
    (hdeck : ∀ u, (deckInit u).Perm fullDeck) (t : ℕ) :
    (trialOppHole js deckInit dead_cards t
      ++ trialRunoutDraw js deckInit board dead_cards t).Nodup
    ∧ (∀ c ∈ trialOppHole js deckInit dead_cards t
          ++ trialRunoutDraw js deckInit board dead_cards t,
        c ∈ fullDeck ∧ c ∉ dead_cards)
    ∧ (trialShuffled js deckInit dead_cards t).Perm
        ((deckInit t).filter fun c => decide (c ∉ dead_cards)) := by
  have hperm : (trialShuffled js deckInit dead_cards t).Perm
      ((deckInit t).filter fun c => decide (c ∉ dead_cards)) :=
    shuffleFY_perm _ _
  have hpoolnodup : ((deckInit t).filter fun c => decide (c ∉ dead_cards)).Nodup :=
    (((hdeck t).nodup_iff).mpr fullDeck_nodup).filter _
  have hshufnodup : (trialShuffled js deckInit dead_cards t).Nodup :=
    (hperm.nodup_iff).mpr hpoolnodup
  have hdrawn : trialOppHole js deckInit dead_cards t
      ++ trialRunoutDraw js deckInit board dead_cards t
      = (trialShuffled js deckInit dead_cards t).take (2 + (5 - board.length)) := by
    rw [List.take_add]
    rfl
  refine ⟨?_, ?_, hperm⟩
  · rw [hdrawn]
    exact hshufnodup.sublist (List.take_sublist _ _)
  · intro c hc
    rw [hdrawn] at hc
    have hcs : c ∈ trialShuffled js deckInit dead_cards t :=
      (List.take_sublist _ _).subset hc
    have hcf : c ∈ (deckInit t).filter fun c => decide (c ∉ dead_cards) :=
      hperm.subset hcs
    rw [List.mem_filter] at hcf
    refine ⟨((hdeck t).mem_iff).mp hcf.1, ?_⟩
    simpa using hcf.2

/-- Witness for C3: canonical fresh-deck orders (so the permutation
hypothesis holds by reflexivity), hero AsKs dead with a full heart board,
trial 0. -/
theorem trial_draws_valid_witness :
    (∀ u : ℕ, ((fun _ => fullDeck) u : List PCard).Perm fullDeck)
    ∧ ((trialOppHole (fun _ _ => 0) (fun _ => fullDeck)
          [⟨12, 0⟩, ⟨11, 0⟩, ⟨0, 1⟩, ⟨1, 1⟩, ⟨2, 1⟩, ⟨3, 1⟩, ⟨4, 1⟩] 0
        ++ trialRunoutDraw (fun _ _ => 0) (fun _ => fullDeck)
          [⟨0, 1⟩, ⟨1, 1⟩, ⟨2, 1⟩, ⟨3, 1⟩, ⟨4, 1⟩]
          [⟨12, 0⟩, ⟨11, 0⟩, ⟨0, 1⟩, ⟨1, 1⟩, ⟨2, 1⟩, ⟨3, 1⟩, ⟨4, 1⟩] 0).Nodup
      ∧ (∀ c ∈ trialOppHole (fun _ _ => 0) (fun _ => fullDeck)
            [⟨12, 0⟩, ⟨11, 0⟩, ⟨0, 1⟩, ⟨1, 1⟩, ⟨2, 1⟩, ⟨3, 1⟩, ⟨4, 1⟩] 0
          ++ trialRunoutDraw (fun _ _ => 0) (fun _ => fullDeck)
            [⟨0, 1⟩, ⟨1, 1⟩, ⟨2, 1⟩, ⟨3, 1⟩, ⟨4, 1⟩]
            [⟨12, 0⟩, ⟨11, 0⟩, ⟨0, 1⟩, ⟨1, 1⟩, ⟨2, 1⟩, ⟨3, 1⟩, ⟨4, 1⟩] 0,
          c ∈ fullDeck ∧ c ∉ ([⟨12, 0⟩, ⟨11, 0⟩, ⟨0, 1⟩, ⟨1, 1⟩, ⟨2, 1⟩,
            ⟨3, 1⟩, ⟨4, 1⟩] : List PCard))
      ∧ (trialShuffled (fun _ _ => 0) (fun _ => fullDeck)
          [⟨12, 0⟩, ⟨11, 0⟩, ⟨0, 1⟩, ⟨1, 1⟩, ⟨2, 1⟩, ⟨3, 1⟩, ⟨4, 1⟩] 0).Perm
          (((fun _ => fullDeck) 0 : List PCard).filter fun c =>
            decide (c ∉ ([⟨12, 0⟩, ⟨11, 0⟩, ⟨0, 1⟩, ⟨1, 1⟩, ⟨2, 1⟩,
              ⟨3, 1⟩, ⟨4, 1⟩] : List PCard)))) :=
  ⟨fun _ => List.Perm.refl fullDeck,
    trial_draws_valid (fun _ _ => 0) (fun _ => fullDeck)
      [⟨0, 1⟩, ⟨1, 1⟩, ⟨2, 1⟩, ⟨3, 1⟩, ⟨4, 1⟩]
      [⟨12, 0⟩, ⟨11, 0⟩, ⟨0, 1⟩, ⟨1, 1⟩, ⟨2, 1⟩, ⟨3, 1⟩, ⟨4, 1⟩]
      (fun _ => List.Perm.refl fullDeck) 0⟩

theorem board_length_valid (f1 f2 f3 t1 r1 : Option PCard)
    (hflop : ¬((([f1, f2, f3].any fun x => x.isSome)
        && !([f1, f2, f3].all fun x => x.isSome)) = true))
    (hturn : ¬((t1.isSome && !([f1, f2, f3].all fun x => x.isSome)) = true))
    (hriver : ¬((r1.isSome && !t1.isSome) = true)) :
    (parse_cards [f1, f2, f3, t1, r1]).length = 0
    ∨ (parse_cards [f1, f2, f3, t1, r1]).length = 3
    ∨ (parse_cards [f1, f2, f3, t1, r1]).length = 4
    ∨ (parse_cards [f1, f2, f3, t1, r1]).length = 5 := by
  rcases f1 with _ | a <;> rcases f2 with _ | b <;> rcases f3 with _ | c <;>
    rcases t1 with _ | d <;> rcases r1 with _ | e <;>
    simp_all [parse_cards]

theorem has_duplicates_of_shared (l1 l2 : List PCard) (c : PCard)
    (h1 : c ∈ l1) (h2 : c ∈ l2) : has_duplicates (l1 ++ l2) = true := by
  unfold has_duplicates
  simp only [decide_eq_true_eq]
  intro hlen
  have hd : (l1 ++ l2).dedup = l1 ++ l2 :=
    (List.dedup_sublist (l1 ++ l2)).eq_of_length hlen.symm
  have hnd : (l1 ++ l2).Nodup := by
    rw [← hd]
    exact List.nodup_dedup _
  rw [List.nodup_append] at hnd
  exact hnd.2.2 h1 h2

/-- C5: whenever the hero hole has fewer than 2 cards, or the selected board
has a length outside `{0, 3, 4, 5}`, or hero and board share a card, the
front end's compute block stops with an error message before any simulation
runs and returns no equity value. -/
theorem computeBlock_rejects (evalRank : List PCard → List PCard → ℕ)
    (js : ℕ → ℕ → ℕ) (deckInit : ℕ → List PCard)
    (h1 h2 f1 f2 f3 t1 r1 : Option PCard) (mc_trials : ℕ)
    (hbad : (parse_cards [h1, h2]).length < 2
      ∨ (parse_cards [f1, f2, f3, t1, r1]).length ∉ ([0, 3, 4, 5] : List ℕ)
      ∨ ∃ c, c ∈ parse_cards [h1, h2] ∧ c ∈ parse_cards [f1, f2, f3, t1, r1]) :
    ∃ msg, computeBlock evalRank js deckInit h1 h2 f1 f2 f3 t1 r1 mc_trials
      = Except.error msg := by
  simp only [computeBlock]
  by_cases hh : (parse_cards [h1, h2]).length ≠ 2
  · rw [if_pos hh]
    exact ⟨_, rfl⟩
  · rw [if_neg hh]
    push_neg at hh
    by_cases hf : (([f1, f2, f3].any fun x => x.isSome)
        && !([f1, f2, f3].all fun x => x.isSome)) = true
    · rw [if_pos hf]
      exact ⟨_, rfl⟩
    · rw [if_neg hf]
      by_cases ht : (t1.isSome && !([f1, f2, f3].all fun x => x.isSome)) = true
      · rw [if_pos ht]
        exact ⟨_, rfl⟩
      · rw [if_neg ht]
        by_cases hr : (r1.isSome && !t1.isSome) = true
        · rw [if_pos hr]
          exact ⟨_, rfl⟩
        · rw [if_neg hr]
          rcases hbad with hb | hb | ⟨c, hc1, hc2⟩
          · omega
          · exact absurd (by rcases board_length_valid f1 f2 f3 t1 r1 hf ht hr with
              h | h | h | h <;> simp [h]) hb
          · rw [if_pos (has_duplicates_of_shared _ _ c hc1 hc2)]
            exact ⟨_, rfl⟩

/-- Witness for C5: only one hero card selected (hero hole has fewer than 2
cards), nothing else picked. -/
theorem computeBlock_rejects_witness :
    ((parse_cards [some ⟨12, 0⟩, none]).length < 2
      ∨ (parse_cards [none, none, none, none, none]).length ∉ ([0, 3, 4, 5] : List ℕ)
      ∨ ∃ c, c ∈ parse_cards [some ⟨12, 0⟩, none]
          ∧ c ∈ parse_cards [none, none, none, none, none])
    ∧ ∃ msg, computeBlock (fun _ _ => 0) (fun _ _ => 0) (fun _ => fullDeck)
        (some ⟨12, 0⟩) none none none none none none 1 = Except.error msg :=
  ⟨Or.inl (by decide),
    computeBlock_rejects (fun _ _ => 0) (fun _ _ => 0) (fun _ => fullDeck)
      (some ⟨12, 0⟩) none none none none none none 1 (Or.inl (by decide))⟩

/-- C9 counterexample: `str_to_card` strips surrounding whitespace before the
length check, so the 4-character input `" As "` parses successfully even
though its length is not 2 — the claim's "fails ... exactly when the
string's length is not 2, or ..." is false as stated. -/
theorem str_to_card_strips_whitespace :
    str_to_card [' ', 'A', 's', ' '] = Except.ok ⟨12, 0⟩
    ∧ ([' ', 'A', 's', ' '] : List Char).length ≠ 2 := by
  constructor
  · rfl
  · decide

/-- C9 (amended): parsing fails exactly when, AFTER stripping surrounding
whitespace (Python `strip()`), the text's length is not 2, or its upcased
rank character is not in `RANKS`, or its downcased suit character is not in
`SUITS`; every input passing these checks parses to the card with the
corresponding rank and suit indices (rank and suit case-insensitive). -/
theorem str_to_card_spec (s : List Char) :
    ((pyStrip s).length ≠ 2 → ∃ msg, str_to_card s = Except.error msg)
    ∧ ∀ c0 c1, pyStrip s = [c0, c1] →
      (¬(c0.toUpper ∈ RANKS ∧ c1.toLower ∈ SUITS) →
        ∃ msg, str_to_card s = Except.error msg)
      ∧ (c0.toUpper ∈ RANKS ∧ c1.toLower ∈ SUITS →
        ∃ ri si, char_index RANKS c0.toUpper = some ri
          ∧ char_index SUITS c1.toLower = some si
          ∧ str_to_card s = Except.ok ⟨ri, si⟩) := by
  constructor
  · intro hlen
    cases hps : pyStrip s with
    | nil => exact ⟨"Card must be like As, Td, 7h.", by simp [str_to_card, hps]⟩
    | cons c0 t =>
      cases t with
      | nil => exact ⟨"Card must be like As, Td, 7h.", by simp [str_to_card, hps]⟩
      | cons c1 t2 =>
        cases t2 with
        | nil => exact absurd (by rw [hps]; rfl) hlen
        | cons c2 t3 =>
          exact ⟨"Card must be like As, Td, 7h.", by simp [str_to_card, hps]⟩
  · intro c0 c1 hps
    constructor
    · intro hnot
      cases hri : char_index RANKS c0.toUpper with
      | none =>
        cases hsi : char_index SUITS c1.toLower with
        | none => exact ⟨"Invalid card string.", by simp [str_to_card, hps, hri, hsi]⟩
        | some si => exact ⟨"Invalid card string.", by simp [str_to_card, hps, hri, hsi]⟩
      | some ri =>
        cases hsi : char_index SUITS c1.toLower with
        | none => exact ⟨"Invalid card string.", by simp [str_to_card, hps, hri, hsi]⟩
        | some si =>
          refine absurd ⟨?_, ?_⟩ hnot
          · exact (char_index_isSome RANKS c0.toUpper).mp (by simp [hri])
          · exact (char_index_isSome SUITS c1.toLower).mp (by simp [hsi])
    · rintro ⟨hr, hsu⟩
      obtain ⟨ri, hri⟩ := Option.isSome_iff_exists.mp
        ((char_index_isSome RANKS c0.toUpper).mpr hr)
      obtain ⟨si, hsi⟩ := Option.isSome_iff_exists.mp
        ((char_index_isSome SUITS c1.toLower).mpr hsu)
      exact ⟨ri, si, hri, hsi, by simp [str_to_card, hps, hri, hsi]⟩

/-- Witness for C9 at the well-formed input "As". -/
theorem str_to_card_spec_witness :
    ((pyStrip ['A', 's']).length ≠ 2 → ∃ msg, str_to_card ['A', 's'] = Except.error msg)
    ∧ ∀ c0 c1, pyStrip ['A', 's'] = [c0, c1] →
      (¬(c0.toUpper ∈ RANKS ∧ c1.toLower ∈ SUITS) →
        ∃ msg, str_to_card ['A', 's'] = Except.error msg)
      ∧ (c0.toUpper ∈ RANKS ∧ c1.toLower ∈ SUITS →
        ∃ ri si, char_index RANKS c0.toUpper = some ri
          ∧ char_index SUITS c1.toLower = some si
          ∧ str_to_card ['A', 's'] = Except.ok ⟨ri, si⟩) :=
  str_to_card_spec ['A', 's']

end PokerAssistant
